import Mathlib

/-!
Verification of the annotation core of the go-scripting repository: the
comment micro-parser and literal evaluator (annotation2/parser.go), the
reference resolver (unnamed part 006 and annotation/resolve.go), the
annotation catalog and dispatch adapter (annotation2/steps.go), and the
pipeline engine (annotation2/pipeline.go and its part_003 iteration).
Every definition is a shallow embedding of the corresponding Go function;
ghost instrumentation (invocation traces, call counters) is added where a
claim speaks about which code was executed, and is documented as such.
-/

set_option maxHeartbeats 1000000

/-- Substring containment, stated on the underlying character lists. -/
def strContains (hay needle : String) : Prop := needle.data <:+: hay.data

/-- One character of Go fmt %q escaping (strconv.Quote): the double quote and
the backslash are escaped with a backslash; other (printable) characters are
kept verbatim. -/
def qEsc (c : Char) : List Char := if c = '"' ∨ c = '\\' then ['\\', c] else [c]

/-- Go fmt %q applied to a string, modelled for printable content. -/
def goQuote (s : String) : String := String.mk ('"' :: (s.data.flatMap qEsc ++ ['"']))

/-- A string is plain when %q quoting leaves its characters untouched. -/
def plainStr (s : String) : Prop := ∀ c ∈ s.data, c ≠ '"' ∧ c ≠ '\\'

/-! ## Pipeline engine (annotation2/pipeline.go, unnamed part_003)

The step value type (Go interface element) and the package type are type
parameters; a nil Go function value is modelled as `none`. -/

/-- One pipeline step (Go struct `step`): name plus run function. A handler
receives the loaded package and the previous step output and returns the next
output together with an optional fatal error. -/
structure GoStep (P V : Type) where
  name : String
  run : Option (P → V → V × Option String)

/-- What Run does: return an optional error, or hit the Go runtime panic that
calling a nil function value raises (the 1-based loop iteration is recorded). -/
inductive RunOutcome
  | ret (e : Option String)
  | panicNil (i : Nat)
deriving DecidableEq, Repr

/-- The error wrapping of pipeline.Run: fmt.Errorf("step %d %q: %v", i+1,
s.name, err), where i is the 0-based slice index. -/
def wrapStepErr (i : Nat) (name msg : String) : String :=
  "step " ++ toString i ++ " " ++ goQuote name ++ ": " ++ msg

/-- The step loop of pipeline.Run (identical in annotation2/pipeline.go lines
55-61 and in the part_003 iteration lines 113-119): `i` is the 0-based slice
index of the head of the remaining step list. The second component is ghost
instrumentation: the 1-based iteration indices whose handler was invoked. -/
def runSteps {P V : Type} (pkg : P) : Nat → V → List (GoStep P V) → RunOutcome × List Nat
  | _, _, [] => (.ret none, [])
  | i, out, s :: rest =>
    match s.run with
    | none => (.panicNil (i + 1), [])
    | some f =>
      let r := f pkg out
      match r.2 with
      | some e => (.ret (some (wrapStepErr (i + 1) s.name e)), [i + 1])
      | none =>
        let k := runSteps pkg (i + 1) r.1 rest
        (k.1, (i + 1) :: k.2)

/-- The Loader consumed by Run. Each call of Load yields an optional package
(the possibly partial source model) and an optional error; indexing by the
call count lets a theorem speak about how many calls Run performs. -/
def GoLoader (P : Type) := Nat → Option P × Option String

/-- The pipeline value: a step list and a loader (Go struct `pipeline`). -/
structure GoPipeline (P V : Type) where
  steps : List (GoStep P V)
  loader : GoLoader P

/-- NewPipeline of annotation2/pipeline.go lines 24-30: make([]step, 1)
creates a step list of length one holding the zero value of `step`, whose
name is the empty string and whose run function is nil. -/
def newPipeline {P V : Type} (ld : GoLoader P) : GoPipeline P V := ⟨[⟨"", none⟩], ld⟩

/-- NewPipeline of the part_003 iteration, lines 85-91: make([]step, 0, 1)
creates an empty step list. -/
def newPipelineV2 {P V : Type} (ld : GoLoader P) : GoPipeline P V := ⟨[], ld⟩

/-- AddStep appends one step to the list; the caller-supplied function value
may itself be nil (`none`). -/
def addStep {P V : Type} (p : GoPipeline P V) (name : String)
    (f : Option (P → V → V × Option String)) : GoPipeline P V :=
  { p with steps := p.steps ++ [⟨name, f⟩] }

/-- pipeline.Run (annotation2/pipeline.go lines 46-64, part_003 lines
107-122): call Load once; if the returned package is nil, return the load
error with no step executed; otherwise iterate the steps threading the output
value, starting from the nil interface value `vnil`. Result: the outcome, the
number of Load calls performed (ghost), and the invoked-handler trace
(ghost). -/
def pipelineRun {P V : Type} (p : GoPipeline P V) (vnil : V) :
    RunOutcome × Nat × List Nat :=
  let l0 := p.loader 0
  match l0.1 with
  | none => (.ret l0.2, 1, [])
  | some pkg =>
    let r := runSteps pkg 0 vnil p.steps
    (r.1, 1, r.2)

/-- Ghost helper for stating claims: the value threaded out of a list of
steps when every one of them has a non-nil handler that succeeds; `none`
otherwise. -/
def runOk {P V : Type} (pkg : P) : V → List (GoStep P V) → Option V
  | out, [] => some out
  | out, s :: rest =>
    match s.run with
    | none => none
    | some f =>
      let r := f pkg out
      match r.2 with
      | some _ => none
      | none => runOk pkg r.1 rest

/-! ## Annotation catalog (annotation2/steps.go lines 25-153)

An annotation hit is identified by its name, the identity of the syntax node
it is anchored to (`From()`), its position, and the resolution outcomes of
its Ref arguments; node, object and package identities are numbers. -/

/-- A parsed annotation as the Catalog step consumes it. `refs` carries, for
each Ref argument, its position and the outcome of LookupRef for it (some
message = resolution error), which the Catalog step reports as warnings. -/
structure Hit where
  name : String
  node : Nat
  pos : Nat
  refs : List (Nat × Option String)
deriving DecidableEq, Repr

/-- A diagnostic recorded through UnitAPI.Errorf: position and message. -/
structure Diag where
  pos : Nat
  msg : String
deriving DecidableEq, Repr

/-- Go map insertion order bookkeeping: the key list of a map, extended when
a new key appears. -/
def insKey {K : Type} [DecidableEq K] (keys : List K) (k : K) : List K :=
  if k ∈ keys then keys else keys ++ [k]

/-- db.m[k] = append(db.m[k], v) on a map modelled as a function. -/
def idxApp {K V : Type} [DecidableEq K] (idx : K → List V) (k : K) (v : V) :
    K → List V :=
  fun x => if x = k then idx x ++ [v] else idx x

/-- The annotation database `adb`: the flat list plus the four indices
(by name, by object, by package, by node), each a Go map modelled as its key
list and lookup function. -/
structure Adb where
  all : List Hit
  nameKeys : List String
  nameIdx : String → List Hit
  objKeys : List Nat
  objIdx : Nat → List Hit
  pkgKeys : List Nat
  pkgIdx : Nat → List Hit
  nodeKeys : List Nat
  nodeIdx : Nat → List Hit

/-- newAdb(): empty database. -/
def newAdb : Adb :=
  ⟨[], [], fun _ => [], [], fun _ => [], [], fun _ => [], [], fun _ => []⟩

/-- adb.add (steps.go lines 105-109): append to all, to the by-name index and
to the by-node index. -/
def adbAdd (db : Adb) (h : Hit) : Adb :=
  { db with
    all := db.all ++ [h]
    nameKeys := insKey db.nameKeys h.name
    nameIdx := idxApp db.nameIdx h.name h
    nodeKeys := insKey db.nodeKeys h.node
    nodeIdx := idxApp db.nodeIdx h.node h }

/-- adb.addObj (steps.go lines 95-98): append to the by-object index, then add. -/
def adbAddObj (db : Adb) (o : Nat) (h : Hit) : Adb :=
  adbAdd
    { db with
      objKeys := insKey db.objKeys o
      objIdx := idxApp db.objIdx o h } h

/-- Lexicographic order on character lists by code point, which is the Go
byte order on the UTF-8 encodings. -/
def charListLe : List Char → List Char → Bool
  | [], _ => true
  | _ :: _, [] => false
  | c :: cs, d :: ds =>
    if c.toNat = d.toNat then charListLe cs ds else decide (c.toNat < d.toNat)

/-- Go string order (sort.Strings comparison). -/
def strLe (a b : String) : Bool := charListLe a.data b.data

/-- `strLe` as a relation, for the sorting lemmas. -/
def strLeR (a b : String) : Prop := strLe a b = true

instance : DecidableRel strLeR := fun a b => by unfold strLeR; infer_instance

/-- sort.Strings: Go map keys carry no order of their own, so Names sorts
them; any comparison sort agrees on the distinct keys of a map, modelled here
as insertion sort with the Go string order. -/
def sortStrings (l : List String) : List String := List.insertionSort strLeR l

/-- adb.All (steps.go lines 42-44); the append([]Hit\x7b\x7d, ...) defensive
copy is the identity on the model. -/
def Adb.allOf (db : Adb) : List Hit := db.all

/-- adb.Named (steps.go lines 46-48). -/
def Adb.named (db : Adb) (n : String) : List Hit := db.nameIdx n

/-- adb.ForObj (steps.go lines 50-52). -/
def Adb.forObj (db : Adb) (o : Nat) : List Hit := db.objIdx o

/-- adb.ForPkg (steps.go lines 54-56). -/
def Adb.forPkg (db : Adb) (p : Nat) : List Hit := db.pkgIdx p

/-- adb.ForNode (steps.go lines 58-60). -/
def Adb.forNode (db : Adb) (n : Nat) : List Hit := db.nodeIdx n

/-- adb.Names (steps.go lines 62-69): collect the by-name keys and sort. -/
def Adb.names (db : Adb) : List String := sortStrings db.nameKeys

/-- The loop body of the Catalog step (steps.go lines 132-150): an anchor
whose LookupObject fails yields a diagnostic and a plain add; a resolved
anchor yields addObj plus one warning diagnostic per unresolvable Ref
argument. `lk` is the LookupObject outcome for a node identity. -/
def catalogLoop (lk : Nat → Except String Nat) :
    Adb → List Diag → List Hit → Adb × List Diag
  | db, ds, [] => (db, ds)
  | db, ds, h :: rest =>
    match lk h.node with
    | .error e =>
      catalogLoop lk (adbAdd db h)
        (ds ++ [⟨h.pos, "cannot find anchor object: " ++ e⟩]) rest
    | .ok o =>
      let warns := h.refs.filterMap fun r =>
        match r.2 with
        | some er => some ⟨r.1, "warning: cannot find referenced object: " ++ er⟩
        | none => (none : Option Diag)
      catalogLoop lk (adbAddObj db o h) (ds ++ warns) rest

/-- The Catalog step (steps.go lines 127-153) on an annotation list: build
the database, collecting diagnostics. -/
def catalogStep (lk : Nat → Except String Nat) (hits : List Hit) : Adb × List Diag :=
  catalogLoop lk newAdb [] hits

/-! ## Dispatch adapter (annotation2/steps.go lines 155-252)

CallFunc inspects a handler through reflection. Runtime types are modelled as
named concrete types, named interface types and the error interface; whether
a type implements an interface is an abstract boolean relation `impl`
supplied by the type system. -/

/-- A reflect runtime type. -/
inductive RType
  | tNamed (s : String)
  | tIface (s : String)
  | tErr
deriving DecidableEq, Repr

/-- Kind check used by reflect.Type.Implements: its argument must be an
interface type. -/
def RType.isIface : RType → Bool
  | .tNamed _ => false
  | .tIface _ => true
  | .tErr => true

/-- Rendering of a type for error messages (fmt %v on a reflect.Type). -/
def RType.str : RType → String
  | .tNamed s => s
  | .tIface s => s
  | .tErr => "error"

/-- A value as CallFunc sees it: its runtime type plus an identity. In the
dispatch path every argument is a non-nil interface value, so each value
carries a type. -/
structure RVal where
  ty : RType
  val : Nat
deriving DecidableEq, Repr

/-- A Go function value as reflection reports it: whether it is a func at
all, variadicity, parameter types, result types, and its behaviour once
called (the optional error it returns). -/
structure GoFunc where
  isFunc : Bool
  variadic : Bool
  inTypes : List RType
  outTypes : List RType
  body : List RVal → Option String

/-- Outcome of CallFunc: a returned optional error, or a runtime panic. -/
inductive CallOutcome
  | ret (e : Option String)
  | panicked (m : String)
deriving DecidableEq, Repr

/-- The argument check loop of CallFunc (steps.go lines 227-235): for each
position, pass when the types are equal; otherwise Go evaluates
have.Implements(need), which panics when `need` is not an interface type, and
reports a per-argument error when the implements check is false. -/
inductive ArgCheck
  | ok
  | err (i : Nat) (need ha : RType)
  | panicNonIface (i : Nat)
deriving DecidableEq, Repr

/-- See `ArgCheck`. `impl ha need` tells whether type `ha` implements the
interface type `need`. -/
def checkArgsFrom (impl : RType → RType → Bool) : Nat → List RType → List RVal → ArgCheck
  | _, [], [] => .ok
  | i, need :: ns, a :: rest =>
    if a.ty = need then checkArgsFrom impl (i + 1) ns rest
    else if need.isIface then
      if impl a.ty need then checkArgsFrom impl (i + 1) ns rest
      else .err i need a.ty
    else .panicNonIface i
  | _, _, _ => .ok

/-- CallFunc (steps.go lines 204-252). Returns the outcome and, as ghost
instrumentation, whether the function body was invoked (fval.Call reached). -/
def callFunc (impl : RType → RType → Bool) (fn : GoFunc) (args : List RVal) :
    CallOutcome × Bool :=
  if fn.isFunc = false then (.ret (some "fn not a func"), false)
  else if fn.variadic then (.ret (some "variadic fn not supported"), false)
  else if fn.outTypes.length > 1 then (.ret (some "fn returns >1 value"), false)
  else if fn.outTypes.length = 1 ∧ fn.outTypes ≠ [.tErr] then
    (.ret (some ("fn should return error, but instead returns " ++
      ((fn.outTypes.headD .tErr).str))), false)
  else if fn.inTypes.length ≠ args.length then
    (.ret (some ("need " ++ toString fn.inTypes.length ++ " args, have " ++
      toString args.length ++ " args")), false)
  else
    match checkArgsFrom impl 0 fn.inTypes args with
    | .err i need ha =>
      (.ret (some ("arg " ++ toString i ++ ": need " ++ need.str ++ ", have " ++
        ha.str)), false)
    | .panicNonIface _ =>
      (.panicked "reflect: non-interface type passed to Type.Implements", false)
    | .ok =>
      if fn.outTypes.isEmpty then (.ret none, true)
      else (.ret (fn.body args), true)

/-- An annotation as the dispatch loop sees it: its name, its position, the
runtime value the hit itself is passed as (first argument), and its evaluated
argument values. -/
structure DHit where
  name : String
  pos : Nat
  selfVal : RVal
  argVals : List RVal
deriving DecidableEq, Repr

/-- append([]interface\x7b\x7d\x7bhit\x7d, hit.Args()...) of steps.go line 177. -/
def DHit.callArgs (h : DHit) : List RVal := h.selfVal :: h.argVals

/-- Outcome of DispatchStep.Run, with diagnostics and, as ghost
instrumentation, the 0-based indices of the catalog annotations whose loop
iteration ran. -/
structure DispResult where
  outcome : CallOutcome
  diags : List Diag
  processed : List Nat
deriving DecidableEq, Repr

/-- The loop of DispatchStep.Run (steps.go lines 175-186): a missing handler
records a diagnostic and continues; a CallFunc error is recorded through
Errorf and returned at once, ending the loop. -/
def dispatchLoop (impl : RType → RType → Bool) (funcs : String → Option GoFunc) :
    Nat → List DHit → DispResult
  | _, [] => ⟨.ret none, [], []⟩
  | i, h :: rest =>
    match funcs h.name with
    | none =>
      let d : Diag := ⟨h.pos, "handler undefined for " ++ goQuote h.name⟩
      let r := dispatchLoop impl funcs (i + 1) rest
      ⟨r.outcome, d :: r.diags, i :: r.processed⟩
    | some fn =>
      match callFunc impl fn h.callArgs with
      | (.panicked m, _) => ⟨.panicked m, [], [i]⟩
      | (.ret (some e), _) =>
        let d : Diag := ⟨h.pos, h.name ++ ": " ++ e⟩
        ⟨.ret (some d.msg), [d], [i]⟩
      | (.ret none, _) =>
        let r := dispatchLoop impl funcs (i + 1) rest
        ⟨r.outcome, r.diags, i :: r.processed⟩

/-- DispatchStep.Run on a catalog annotation list (steps.go lines 169-188),
after the input type guard. -/
def dispatchRun (impl : RType → RType → Bool) (funcs : String → Option GoFunc)
    (hits : List DHit) : DispResult :=
  dispatchLoop impl funcs 0 hits

/-! ## Literal evaluation (annotation2/parser.go lines 259-318)

Literal nodes carry their kind and their printed source text; evalLit parses
the printed text of the whole node (sign included) with the strconv
functions, which are modelled below for the decimal and quoted forms of the
annotation literal grammar. -/

/-- go/token literal kinds that can reach evalLit. -/
inductive LitKind
  | kStr
  | kInt
  | kFloat
  | kChar
  | kImag
deriving DecidableEq, Repr

/-- An ast.BasicLit: token kind plus source text. -/
structure BasicLit where
  kind : LitKind
  text : String
deriving DecidableEq, Repr

/-- The unary operators of go/token that can head a unary expression here. -/
inductive GoOp
  | opSub
  | opAdd
  | opNot
  | opXor
deriving DecidableEq, Repr

/-- go/printer rendering of a unary operator. -/
def GoOp.str : GoOp → String
  | .opSub => "-"
  | .opAdd => "+"
  | .opNot => "!"
  | .opXor => "^"

/-- The operand of a unary expression as evalLit inspects it: a basic
literal, or any other node (carried as its printed text). -/
inductive UnaryX
  | xLit (l : BasicLit)
  | xOther (txt : String)
deriving DecidableEq, Repr

/-- The node argument of evalLit: a basic literal or a unary expression. -/
inductive LitNode
  | basic (l : BasicLit)
  | unary (op : GoOp) (x : UnaryX)
deriving DecidableEq, Repr

/-- go/printer output of the operand. -/
def UnaryX.str : UnaryX → String
  | .xLit l => l.text
  | .xOther t => t

/-- go/printer output of the whole node (toStr in parser.go). -/
def LitNode.str : LitNode → String
  | .basic l => l.text
  | .unary op x => op.str ++ x.str

/-- Decimal digit test on a character. -/
def isDigit (c : Char) : Bool := decide (48 ≤ c.toNat) && decide (c.toNat ≤ 57)

/-- Value of a nonempty all-digit character list, else none. -/
def digitsVal (l : List Char) : Option Nat :=
  if l = [] then none
  else if l.all isDigit then
    some (l.foldl (fun acc c => acc * 10 + (c.toNat - 48)) 0)
  else none

/-- Largest value of the Go type int (64-bit). -/
def int64Max : Int := 9223372036854775807

/-- Smallest value of the Go type int (64-bit). -/
def int64Min : Int := -9223372036854775808

/-- strconv.Atoi: optional single sign, decimal digits, 64-bit range; any
other shape or an out-of-range value is an error. -/
def goAtoi (s : String) : Except String Int :=
  match s.data with
  | [] => .error "invalid syntax"
  | c :: rest =>
    let body := if c = '-' ∨ c = '+' then rest else c :: rest
    match digitsVal body with
    | none => .error "invalid syntax"
    | some n =>
      let v : Int := if c = '-' then -(n : Int) else (n : Int)
      if v < int64Min ∨ int64Max < v then .error "value out of range"
      else .ok v

/-- Split a character list at the first occurrence of `c`; none when absent. -/
def splitOnChar (c : Char) : List Char → Option (List Char × List Char)
  | [] => none
  | d :: ds =>
    if d = c then some ([], ds)
    else
      match splitOnChar c ds with
      | none => none
      | some (a, b) => some (d :: a, b)

/-- Decimal mantissa `digits[.digits]` (a digit on at least one side of the
dot): its digit value and the length of the fraction part. -/
def parseMantissa (l : List Char) : Option (Nat × Nat) :=
  match splitOnChar '.' l with
  | none => (digitsVal l).map fun n => (n, 0)
  | some (ip, fp) =>
    if ip.all isDigit ∧ fp.all isDigit then
      (digitsVal (ip ++ fp)).map fun n => (n, fp.length)
    else none

/-- Exponent part of a float: optional single sign plus digits. -/
def parseExpPart (l : List Char) : Option Int :=
  match l with
  | [] => none
  | c :: rest =>
    let body := if c = '-' ∨ c = '+' then rest else c :: rest
    (digitsVal body).map fun n => if c = '-' then -(n : Int) else (n : Int)

/-- The unsigned part of the decimal float grammar: mantissa with optional
e or E exponent part; yields (mantissa digits value, fraction length,
exponent). -/
def floatCore (body : List Char) : Option (Nat × Nat × Int) :=
  let parts :=
    match splitOnChar 'e' body with
    | some p => some p
    | none => splitOnChar 'E' body
  match parts with
  | none => (parseMantissa body).map fun mf => (mf.1, mf.2, (0 : Int))
  | some (mant, ex) =>
    match parseMantissa mant, parseExpPart ex with
    | some mf, some e => some (mf.1, mf.2, e)
    | _, _ => none

/-- strconv.ParseFloat on the decimal float grammar of the spec (section 6):
the result (m, e) denotes the exact decimal value m times 10 to the e, the
value that Go then rounds to the nearest binary64 (rounding commutes with
negation, so sign facts transfer; the scenario value -0.125 is dyadic and
exact). Special forms (inf, NaN, hex floats) are outside the spec grammar
and are not modelled. -/
def goParseFloat (s : String) : Except String (Int × Int) :=
  match s.data with
  | [] => .error "invalid syntax"
  | c :: rest =>
    let body := if c = '-' ∨ c = '+' then rest else c :: rest
    match floatCore body with
    | none => .error "invalid syntax"
    | some (m, flen, e) =>
      let mi : Int := if c = '-' then -(m : Int) else (m : Int)
      .ok (mi, e - (flen : Int))

/-- The exact rational a modelled float value denotes. -/
def floatDenote (m e : Int) : ℚ := (m : ℚ) * 10 ^ e

/-- An evaluated literal value as parseAnnotationAt stores it: Go string,
int, or float64 (held as its exact decimal reading, see goParseFloat). -/
inductive GoVal
  | vStr (s : String)
  | vInt (n : Int)
  | vFloat (m : Int) (e : Int)
deriving DecidableEq, Repr

/-- Escape processing inside a double-quoted Go string body; the escapes of
the annotation literal grammar are handled, an unknown escape or a stray
quote or newline is a syntax error, as in strconv.Unquote. -/
def unqBody : List Char → Option (List Char)
  | [] => some []
  | '\\' :: c :: rest =>
    let dec : Option Char :=
      if c = 'n' then some '\n'
      else if c = 't' then some '\t'
      else if c = 'r' then some '\r'
      else if c = '\\' then some '\\'
      else if c = '"' then some '"'
      else none
    match dec with
    | none => none
    | some d =>
      match unqBody rest with
      | none => none
      | some tail => some (d :: tail)
  | '\\' :: [] => none
  | '"' :: _ => none
  | '\n' :: _ => none
  | c :: rest =>
    match unqBody rest with
    | none => none
    | some tail => some (c :: tail)

/-- strconv.Unquote: a double-quoted string with escape processing, or a
backquoted raw string (carriage returns dropped); anything else, in
particular any text not starting with a quote, is a syntax error. -/
def goUnquote (s : String) : Except String String :=
  match s.data with
  | '"' :: rest =>
    if rest.getLast? = some '"' then
      match unqBody rest.dropLast with
      | some body => .ok (String.mk body)
      | none => .error "invalid syntax"
    else .error "invalid syntax"
  | '`' :: rest =>
    if rest.getLast? = some '`' then
      let body := rest.dropLast
      if body.contains '`' then .error "invalid syntax"
      else .ok (String.mk (body.filter (· ≠ '\r')))
    else .error "invalid syntax"
  | _ => .error "invalid syntax"

/-- The kind switch of evalLit (parser.go lines 308-317), applied to the
printed text of the whole node. -/
def evalKind (k : LitKind) (str : String) : Except String GoVal :=
  match k with
  | .kStr => (goUnquote str).map GoVal.vStr
  | .kInt => (goAtoi str).map GoVal.vInt
  | .kFloat => (goParseFloat str).map fun me => GoVal.vFloat me.1 me.2
  | _ => .error ("Literal type not handled: " ++ str)

/-- evalLit (parser.go lines 290-318): a unary node must wrap a basic
literal and its operator must be SUB; then the node's printed text (sign
included) is handed to the strconv parser for the literal's kind. -/
def evalLit (node : LitNode) : Except String GoVal :=
  match node with
  | .unary op x =>
    match x with
    | .xOther t => .error ("not a basic literal: " ++ t)
    | .xLit l =>
      if op ≠ .opSub then
        .error ("unsupported unary operator " ++ op.str ++ " in " ++ goQuote node.str)
      else evalKind l.kind node.str
  | .basic l => evalKind l.kind node.str

/-! ## Comment scanning and annotation parsing (annotation2/parser.go lines
130-238)

The single-line marker is the anchored regular expression `^// ?@`: the two
comment slashes, at most one space, then the at sign. The candidate chunk is
everything after the marker up to the end of the line; it is handed to the
Go expression parser and must come back as a call expression. -/

/-- The regular expression annotationBeginSingle = `^// ?@` (parser.go line
130): on a match, the end offset of the match and the remaining characters.
Being anchored and lacking multiline mode, it matches at most once. -/
def annBeginSingleSplit (t : String) : Option (Nat × List Char) :=
  match t.data with
  | '/' :: '/' :: ' ' :: '@' :: rest => some (4, rest)
  | '/' :: '/' :: '@' :: rest => some (3, rest)
  | _ => none

/-- The candidate chunk runs to the next newline or the end of the text
(parser.go lines 149-153). -/
def takeLine (l : List Char) : List Char := l.takeWhile (· ≠ '\n')

/-- ParseComment (parser.go lines 134-163) restricted to single-line
comments: the at-most-one marker match yields at most one candidate chunk. -/
def singleCommentChunk (t : String) : Option String :=
  (annBeginSingleSplit t).map fun m => String.mk (takeLine m.2)

/-- The expression nodes the annotation grammar produces. -/
inductive ExprAst
  | eIdent (s : String)
  | eSel (x : ExprAst) (s : String)
  | eLit (l : BasicLit)
  | eUnary (op : GoOp) (x : ExprAst)
  | eCall (f : ExprAst) (args : List ExprAst)

mutual

/-- go/printer output of an expression node (toStr in parser.go). -/
def toStrE : ExprAst → String
  | .eIdent s => s
  | .eSel x s => toStrE x ++ "." ++ s
  | .eLit l => l.text
  | .eUnary op x => op.str ++ toStrE x
  | .eCall f args => toStrE f ++ "(" ++ toStrArgs args ++ ")"

/-- go/printer output of a comma-separated argument list. -/
def toStrArgs : List ExprAst → String
  | [] => ""
  | [a] => toStrE a
  | a :: rest => toStrE a ++ ", " ++ toStrArgs rest

end

/-- Tokens of the annotation micro-grammar. -/
inductive Tok
  | tokIdent (s : String)
  | tokStr (raw : String)
  | tokInt (raw : String)
  | tokFloat (raw : String)
  | tokLparen
  | tokRparen
  | tokComma
  | tokDot
  | tokMinus
deriving DecidableEq, Repr

/-- Identifier start character. -/
def isIdentStart (c : Char) : Bool := c.isAlpha || c = '_'

/-- Identifier continuation character. -/
def isIdentChar (c : Char) : Bool := isIdentStart c || isDigit c

/-- Scan a double-quoted string literal body after its opening quote,
keeping the raw text: returns the raw characters (closing quote included)
and the rest. -/
def scanStr : List Char → Option (List Char × List Char)
  | [] => none
  | '\\' :: d :: rest =>
    match scanStr rest with
    | none => none
    | some p => some ('\\' :: d :: p.1, p.2)
  | '"' :: rest => some (['"'], rest)
  | d :: rest =>
    match scanStr rest with
    | none => none
    | some p => some (d :: p.1, p.2)

/-- Modelled from the spec: the tokenizer of the host language expression
grammar (go/scanner, external to this repository), restricted to the
annotation argument grammar of spec sections 4.1 and 6 - identifiers,
double-quoted strings, decimal int and float literals, parentheses, commas,
dots and the minus sign. Any other character is a syntax error. -/
def lexChunk : Nat → List Char → Except String (List Tok)
  | 0, _ => .error "lexer out of fuel"
  | _, [] => .ok []
  | fuel + 1, c :: rest =>
    if c = ' ' ∨ c = '\t' then lexChunk fuel rest
    else if c = '(' then (lexChunk fuel rest).map (Tok.tokLparen :: ·)
    else if c = ')' then (lexChunk fuel rest).map (Tok.tokRparen :: ·)
    else if c = ',' then (lexChunk fuel rest).map (Tok.tokComma :: ·)
    else if c = '.' then (lexChunk fuel rest).map (Tok.tokDot :: ·)
    else if c = '-' then (lexChunk fuel rest).map (Tok.tokMinus :: ·)
    else if c = '"' then
      match scanStr rest with
      | none => .error "string literal not terminated"
      | some p =>
        (lexChunk fuel p.2).map (Tok.tokStr (String.mk ('"' :: p.1)) :: ·)
    else if isDigit c then
      let num := (c :: rest).takeWhile fun d => isDigit d || d = '.'
      let rest2 := (c :: rest).dropWhile fun d => isDigit d || d = '.'
      let tok := if num.contains '.' then Tok.tokFloat (String.mk num)
                 else Tok.tokInt (String.mk num)
      (lexChunk fuel rest2).map (tok :: ·)
    else if isIdentStart c then
      let idc := (c :: rest).takeWhile isIdentChar
      let rest2 := (c :: rest).dropWhile isIdentChar
      (lexChunk fuel rest2).map (Tok.tokIdent (String.mk idc) :: ·)
    else .error "unexpected character"

/-- Parse the tail of a dotted identifier path. -/
def parseDottedRest (acc : ExprAst) : List Tok → ExprAst × List Tok
  | Tok.tokDot :: Tok.tokIdent s :: rest => parseDottedRest (.eSel acc s) rest
  | ts => (acc, ts)

/-- Parse a dotted identifier path. -/
def parseDotted : List Tok → Option (ExprAst × List Tok)
  | Tok.tokIdent s :: rest => some (parseDottedRest (.eIdent s) rest)
  | _ => none

/-- Parse one argument atom: a literal, a dotted path, or a unary minus
applied to an atom. -/
def parseAtom : List Tok → Option (ExprAst × List Tok)
  | Tok.tokStr r :: rest => some (.eLit ⟨.kStr, r⟩, rest)
  | Tok.tokInt r :: rest => some (.eLit ⟨.kInt, r⟩, rest)
  | Tok.tokFloat r :: rest => some (.eLit ⟨.kFloat, r⟩, rest)
  | Tok.tokMinus :: rest =>
    match parseAtom rest with
    | none => none
    | some p => some (.eUnary .opSub p.1, p.2)
  | ts => parseDotted ts

/-- Parse the argument list after the opening parenthesis, commas between
arguments, optional trailing comma, closing parenthesis. -/
def parseArgsList : Nat → List Tok → Option (List ExprAst × List Tok)
  | _, Tok.tokRparen :: rest => some ([], rest)
  | 0, _ => none
  | fuel + 1, ts =>
    match parseAtom ts with
    | none => none
    | some (a, rest) =>
      match rest with
      | Tok.tokComma :: rest2 =>
        match parseArgsList fuel rest2 with
        | none => none
        | some p => some (a :: p.1, p.2)
      | Tok.tokRparen :: rest2 => some ([a], rest2)
      | _ => none

/-- Modelled from the spec: go/parser.ParseExpr (external to this
repository) restricted to the annotation call grammar of spec sections 4.1
and 6; a well-formed call expression comes back as an eCall node, a bare
dotted path comes back as such, and anything else is a syntax error. -/
def miniParseExpr (chunk : String) : Except String ExprAst :=
  match lexChunk (chunk.data.length + 1) chunk.data with
  | .error e => .error e
  | .ok toks =>
    match parseDotted toks with
    | some (f, Tok.tokLparen :: rest) =>
      match parseArgsList (rest.length + 1) rest with
      | some (args, []) => .ok (.eCall f args)
      | _ => .error "syntax error in annotation expression"
    | some (f, []) => .ok f
    | _ => .error "syntax error in annotation expression"

/-- identOnlySelector (parser.go lines 269-286): the node holds only
identifier and member-access nodes. -/
def identOnly : ExprAst → Bool
  | .eIdent _ => true
  | .eSel x _ => identOnly x
  | _ => false

/-- The dot-split segments of an identifier-only path. -/
def refPath : ExprAst → List String
  | .eIdent s => [s]
  | .eSel x s => refPath x ++ [s]
  | _ => []

/-- An evaluated annotation argument: a symbol reference with its path, or
an evaluated literal. -/
inductive ArgVal
  | aRef (path : List String)
  | aLit (v : GoVal)
deriving DecidableEq, Repr

/-- The argument switch of parseAnnotationAt (parser.go lines 192-228):
identifier and selector nodes become Refs (selectors checked to hold only
identifiers), literal and unary nodes go through evalLit, anything else is
an unsupported-syntax error. -/
def evalArg : ExprAst → Except String ArgVal
  | .eIdent s => .ok (.aRef [s])
  | .eSel x s =>
    if identOnly (ExprAst.eSel x s) then .ok (.aRef (refPath (ExprAst.eSel x s)))
    else .error ("unsupported syntax in ref " ++ goQuote (toStrE (ExprAst.eSel x s)))
  | .eLit l => (evalLit (.basic l)).map ArgVal.aLit
  | .eUnary op x =>
    (evalLit (.unary op
      (match x with
       | .eLit l => UnaryX.xLit l
       | e => UnaryX.xOther (toStrE e)))).map ArgVal.aLit
  | e => .error ("unsupported syntax " ++ goQuote (toStrE e))

/-- A parsed annotation: the verbatim dotted callee text and the evaluated
arguments, in source order. -/
structure Annot where
  name : String
  args : List ArgVal
deriving DecidableEq, Repr

/-- Evaluate all arguments left to right, stopping at the first error. -/
def evalArgsList : List ExprAst → Except String (List ArgVal)
  | [] => .ok []
  | a :: rest =>
    match evalArg a with
    | .error e => .error e
    | .ok v =>
      match evalArgsList rest with
      | .error e => .error e
      | .ok vs => .ok (v :: vs)

/-- parseAnnotationAt (parser.go lines 165-238) on a candidate chunk: parse
as an expression, require a call, evaluate the arguments. -/
def parseAnnotChunk (chunk : String) : Except String Annot :=
  match miniParseExpr chunk with
  | .error e => .error e
  | .ok e =>
    match e with
    | .eCall f args => (evalArgsList args).map fun vs => Annot.mk (toStrE f) vs
    | e2 => .error ("not a func call, instead " ++ toStrE e2)

/-- A single-line comment through ParseComment: the annotations parsed out
of it and the number of parse errors reported through Errorf. -/
def parseCommentAnnots (t : String) : List Annot × Nat :=
  match singleCommentChunk t with
  | none => ([], 0)
  | some chunk =>
    match parseAnnotChunk chunk with
    | .ok a => ([a], 0)
    | .error _ => ([], 1)

/-! ## Reference resolver (unnamed part_006 lines 15-97; annotation/resolve.go
lines 40-93 is the same algorithm)

Scopes, packages and objects are identities; the source model's lookup
facilities are an abstract environment. -/

/-- A resolved object: a package name object (whose members are looked up in
the imported package scope) or any other object (whose members are looked up
with types.LookupFieldOrMethod, pointer indirection allowed). -/
inductive GoObj
  | oPkgName (p : Nat)
  | oPlain (o : Nat)
deriving DecidableEq, Repr

/-- The source model lookup facilities LookupName dispatches to:
Scope.LookupParent (walks enclosing scopes), Package.Scope, PkgName.Imported
and types.LookupFieldOrMethod with addressable set to true. -/
structure ResolveEnv where
  scopeLookup : Nat → String → Option GoObj
  pkgScope : Nat → Nat
  imported : Nat → Nat
  member : Nat → String → Option GoObj

/-- The parent argument of LookupName (a Go interface value). -/
inductive Parent
  | pScope (s : Nat)
  | pPkg (p : Nat)
  | pObj (o : GoObj)

/-- LookupName on a scope (part_006 lines 17-22). -/
def lookupInScope (env : ResolveEnv) (s : Nat) (name : String) : Except String GoObj :=
  match env.scopeLookup s name with
  | some o => .ok o
  | none => .error (goQuote name ++ " not found in scope")

/-- LookupName on a package (part_006 lines 23-28): look in the package
scope, rewrapping the error. -/
def lookupInPkg (env : ResolveEnv) (p : Nat) (name : String) : Except String GoObj :=
  match lookupInScope env (env.pkgScope p) name with
  | .ok o => .ok o
  | .error _ => .error (goQuote name ++ " not found in package")

/-- LookupName (part_006 lines 15-45): dispatch on the parent kind; a
package-name object delegates to its imported package, any other object is
looked up as a field or method of its type. -/
def lookupName (env : ResolveEnv) (parent : Parent) (name : String) : Except String GoObj :=
  match parent with
  | .pScope s => lookupInScope env s name
  | .pPkg p => lookupInPkg env p name
  | .pObj (GoObj.oPkgName p) => lookupInPkg env (env.imported p) name
  | .pObj (GoObj.oPlain o) =>
    match env.member o name with
    | some r => .ok r
    | none => .error (goQuote name ++ " not found in object")

/-- The loop of LookupRef (part_006 lines 84-95): segment 0 is looked up in
the starting scope, every later segment in the previously resolved object;
the first failure is returned with the chain resolved so far. The third
component is ghost instrumentation: the number of LookupName calls made. -/
def lookupRefLoop (env : ResolveEnv) : Parent → List String → List GoObj × Option String × Nat
  | _, [] => ([], none, 0)
  | parent, name :: rest =>
    match lookupName env parent name with
    | .error e => ([], some e, 1)
    | .ok obj =>
      let k := lookupRefLoop env (.pObj obj) rest
      (obj :: k.1, k.2.1, k.2.2 + 1)

/-- LookupRef (part_006 lines 78-97): resolve the dot-split path of a
reference starting from the scope innermost around the anchor. -/
def lookupRef (env : ResolveEnv) (scope : Nat) (path : List String) :
    List GoObj × Option String × Nat :=
  lookupRefLoop env (.pScope scope) path

/-- A sequence of AddStep calls, in order. -/
def addSteps {P V : Type} (p : GoPipeline P V) (l : List (GoStep P V)) : GoPipeline P V :=
  l.foldl (fun q s => addStep q s.name s.run) p

/-- The first character of the string is a decimal digit. -/
def headIsDigit (s : String) : Bool :=
  match s.data with
  | c :: _ => isDigit c
  | [] => false

/-- The first character of the string is a decimal digit or a dot. -/
def headIsDigitOrDot (s : String) : Bool :=
  match s.data with
  | c :: _ => isDigit c || c = '.'
  | [] => false

/-! ## Helper lemmas -/

theorem flatMap_qEsc_plain : ∀ l : List Char, (∀ c ∈ l, c ≠ '"' ∧ c ≠ '\\') →
    l.flatMap qEsc = l
  | [], _ => rfl
  | c :: rest, h => by
    have hc := h c (by simp)
    have ih := flatMap_qEsc_plain rest (fun d hd => h d (by simp [hd]))
    simp [qEsc, hc.1, hc.2, ih]

theorem goQuote_plain_data {s : String} (h : plainStr s) :
    (goQuote s).data = '"' :: s.data ++ ['"'] := by
  simp [goQuote, flatMap_qEsc_plain s.data h]

theorem infix_middle {A B l : List Char} : l <:+: A ++ (l ++ B) :=
  ⟨A, B, by simp⟩

theorem wrapStepErr_contains_index (i : Nat) (name msg : String) :
    strContains (wrapStepErr i name msg) (toString i) := by
  unfold strContains wrapStepErr
  simp [String.data_append]
  exact ⟨"step ".data, (" " ++ goQuote name ++ ": " ++ msg).data, by
    simp [String.data_append]⟩

theorem wrapStepErr_contains_name (i : Nat) (name msg : String)
    (h : plainStr name) : strContains (wrapStepErr i name msg) name := by
  unfold strContains wrapStepErr
  simp [String.data_append, goQuote_plain_data h]
  exact ⟨"step ".data ++ (toString i).data ++ " ".data ++ ['"'],
    '"' :: ": ".data ++ msg.data, by simp [String.data_append]⟩

theorem runSteps_ok_append {P V : Type} (pkg : P) :
    ∀ (pre : List (GoStep P V)) (i : Nat) (out out2 : V) (rest : List (GoStep P V)),
      runOk pkg out pre = some out2 →
      runSteps pkg i out (pre ++ rest) =
        ((runSteps pkg (i + pre.length) out2 rest).1,
          List.range' (i + 1) pre.length ++ (runSteps pkg (i + pre.length) out2 rest).2)
  | [], i, out, out2, rest, h => by
    simp [runOk] at h
    subst h
    simp [List.range']
  | s :: pre, i, out, out2, rest, h => by
    cases hr : s.run with
    | none => simp [runOk, hr] at h
    | some f =>
      cases he : (f pkg out).2 with
      | some e => simp [runOk, hr, he] at h
      | none =>
        simp only [runOk, hr, he] at h
        simp only [List.cons_append]
        have ih := runSteps_ok_append pkg pre (i + 1) (f pkg out).1 out2 rest h
        simp only [runSteps, hr, he, ih]
        simp [List.range'_succ, Nat.add_assoc, Nat.add_comm 1 pre.length]

theorem runSteps_err_head {P V : Type} (pkg : P) (i : Nat) (out : V)
    (s : GoStep P V) (post : List (GoStep P V)) (f : P → V → V × Option String)
    (e : String) (hf : s.run = some f) (he : (f pkg out).2 = some e) :
    runSteps pkg i out (s :: post) =
      (.ret (some (wrapStepErr (i + 1) s.name e)), [i + 1]) := by
  simp [runSteps, hf, he]

/-- C1: for every pipeline with steps s_1..s_n, if step i (1-indexed)
returns a fatal error from its handler (the steps before it having
succeeded), Run returns that error wrapped as "step i \x22name\x22: err" -
whose message contains the decimal index i and, for a name %q leaves
unescaped, the step's name - the handler-invocation trace is exactly steps
1..i, and in particular no handler of steps i+1..n is invoked. -/
theorem claim1_pipeline_short_circuit {P V : Type} (p : GoPipeline P V) (vnil : V)
    (pkg : P) (pre post : List (GoStep P V)) (s : GoStep P V)
    (f : P → V → V × Option String) (out : V) (e : String)
    (hload : (p.loader 0).1 = some pkg)
    (hsteps : p.steps = pre ++ s :: post)
    (hpre : runOk pkg vnil pre = some out)
    (hf : s.run = some f)
    (he : (f pkg out).2 = some e) :
    (pipelineRun p vnil).1 = .ret (some (wrapStepErr (pre.length + 1) s.name e)) ∧
    (pipelineRun p vnil).2.2 = List.range' 1 (pre.length + 1) ∧
    (∀ j ∈ (pipelineRun p vnil).2.2, j ≤ pre.length + 1) ∧
    strContains (wrapStepErr (pre.length + 1) s.name e) (toString (pre.length + 1)) ∧
    (plainStr s.name → strContains (wrapStepErr (pre.length + 1) s.name e) s.name) := by
  have hrun : runSteps pkg 0 vnil p.steps =
      (.ret (some (wrapStepErr (pre.length + 1) s.name e)),
        List.range' 1 (pre.length + 1)) := by
    rw [hsteps, runSteps_ok_append pkg pre 0 vnil out _ hpre,
      runSteps_err_head pkg (0 + pre.length) out s post f e hf he]
    simp [List.range'_concat, Nat.add_comm]
  refine ⟨?_, ?_, ?_, ?_, ?_⟩
  · simp [pipelineRun, hload, hrun]
  · simp [pipelineRun, hload, hrun]
  · intro j hj
    simp [pipelineRun, hload, hrun, List.mem_range'] at hj
    omega
  · exact wrapStepErr_contains_index _ _ _
  · exact fun hp => wrapStepErr_contains_name _ _ _ hp

/-- Witness for C1 at a concrete three-step pipeline whose second step
fails. -/
theorem claim1_witness :
    runOk (0 : Nat) (0 : Nat)
      [(⟨"a", some fun _ v => (v + 1, none)⟩ : GoStep Nat Nat)] = some 1 ∧
    ((pipelineRun
        (⟨[⟨"a", some fun _ v => (v + 1, none)⟩,
           ⟨"boom", some fun _ _ => (0, some "fail")⟩,
           ⟨"c", some fun _ v => (v, none)⟩],
          fun _ => (some 0, none)⟩ : GoPipeline Nat Nat) 0).1 =
      .ret (some (wrapStepErr 2 "boom" "fail")) ∧
     (pipelineRun
        (⟨[⟨"a", some fun _ v => (v + 1, none)⟩,
           ⟨"boom", some fun _ _ => (0, some "fail")⟩,
           ⟨"c", some fun _ v => (v, none)⟩],
          fun _ => (some 0, none)⟩ : GoPipeline Nat Nat) 0).2.2 =
      List.range' 1 2 ∧
     (∀ j ∈ (pipelineRun
        (⟨[⟨"a", some fun _ v => (v + 1, none)⟩,
           ⟨"boom", some fun _ _ => (0, some "fail")⟩,
           ⟨"c", some fun _ v => (v, none)⟩],
          fun _ => (some 0, none)⟩ : GoPipeline Nat Nat) 0).2.2, j ≤ 2) ∧
     strContains (wrapStepErr 2 "boom" "fail") (toString 2) ∧
     (plainStr "boom" → strContains (wrapStepErr 2 "boom" "fail") "boom")) :=
  ⟨rfl,
    claim1_pipeline_short_circuit
      (⟨[⟨"a", some fun _ v => (v + 1, none)⟩,
         ⟨"boom", some fun _ _ => (0, some "fail")⟩,
         ⟨"c", some fun _ v => (v, none)⟩],
        fun _ => (some 0, none)⟩ : GoPipeline Nat Nat) 0 0
      [⟨"a", some fun _ v => (v + 1, none)⟩]
      [⟨"c", some fun _ v => (v, none)⟩]
      ⟨"boom", some fun _ _ => (0, some "fail")⟩
      (fun _ _ => (0, some "fail")) 1 "fail" rfl rfl rfl rfl rfl⟩

/-- C5: Run performs exactly one Load call; when the load yields no partial
model, Run returns the load error with no handler invoked; when it yields a
usable partial model, Run executes the steps with that model and the outcome
is exactly the step-loop outcome, so the load diagnostics change nothing and
abort nothing; and the whole run depends only on the first Load result. -/
theorem claim5_load_once {P V : Type} (p : GoPipeline P V) (vnil : V) :
    (pipelineRun p vnil).2.1 = 1 ∧
    ((p.loader 0).1 = none →
      pipelineRun p vnil = (.ret (p.loader 0).2, 1, [])) ∧
    (∀ pkg, (p.loader 0).1 = some pkg →
      pipelineRun p vnil =
        ((runSteps pkg 0 vnil p.steps).1, 1, (runSteps pkg 0 vnil p.steps).2)) ∧
    (∀ q : GoPipeline P V, q.steps = p.steps → q.loader 0 = p.loader 0 →
      pipelineRun q vnil = pipelineRun p vnil) := by
  refine ⟨?_, ?_, ?_, ?_⟩
  · unfold pipelineRun
    cases h : (p.loader 0).1 <;> simp [h]
  · intro h
    simp [pipelineRun, h]
  · intro pkg h
    simp [pipelineRun, h]
  · intro q hs hl
    unfold pipelineRun
    rw [hl, hs]

/-- Witness for C5: a loader that fails with no partial model makes Run
return the load error having invoked nothing. -/
theorem claim5_witness :
    ((⟨[⟨"s", some fun _ v => (v, none)⟩], fun _ => (none, some "lerr")⟩ :
        GoPipeline Nat Nat).loader 0).1 = none ∧
    pipelineRun
      (⟨[⟨"s", some fun _ v => (v, none)⟩], fun _ => (none, some "lerr")⟩ :
        GoPipeline Nat Nat) 0 = (.ret (some "lerr"), 1, []) :=
  ⟨rfl,
    (claim5_load_once
      (⟨[⟨"s", some fun _ v => (v, none)⟩], fun _ => (none, some "lerr")⟩ :
        GoPipeline Nat Nat) 0).2.1 rfl⟩

theorem addSteps_steps {P V : Type} :
    ∀ (added : List (GoStep P V)) (p : GoPipeline P V),
      (addSteps p added).steps = p.steps ++ added
  | [], p => by simp [addSteps]
  | s :: rest, p => by
    have ih := addSteps_steps rest (addStep p s.name s.run)
    show (addSteps (addStep p s.name s.run) rest).steps = p.steps ++ s :: rest
    rw [ih]
    simp [addStep]

theorem addSteps_loader {P V : Type} :
    ∀ (added : List (GoStep P V)) (p : GoPipeline P V),
      (addSteps p added).loader = p.loader
  | [], p => rfl
  | s :: rest, p => by
    have ih := addSteps_loader rest (addStep p s.name s.run)
    show (addSteps (addStep p s.name s.run) rest).loader = p.loader
    rw [ih]
    rfl

/-- C10 counterexample: with a successful load and one caller-added step,
even one that would itself fail, Run panics on its first iteration invoking
the phantom nil step; it returns no wrapped error at all, in particular none
reporting index 2 for the caller-added step. -/
theorem claim10_counterexample :
    (pipelineRun (addStep (newPipeline (P := Nat) (V := Nat)
        (fun _ => (some 0, none))) "first" (some fun _ _ => (0, some "boom"))) 0).1 =
      RunOutcome.panicNil 1 ∧
    (∀ m : String,
      (pipelineRun (addStep (newPipeline (P := Nat) (V := Nat)
          (fun _ => (some 0, none))) "first" (some fun _ _ => (0, some "boom"))) 0).1 ≠
        RunOutcome.ret (some m)) := by
  refine ⟨rfl, fun m hm => ?_⟩
  have h : (pipelineRun (addStep (newPipeline (P := Nat) (V := Nat)
      (fun _ => (some 0, none))) "first" (some fun _ _ => (0, some "boom"))) 0).1 =
      RunOutcome.panicNil 1 := rfl
  rw [h] at hm
  cases hm

/-- C10 amended: every pipeline built by NewPipeline of
annotation2/pipeline.go starts with a step list of length 1 whose single
entry is the zero-valued step with a nil run function; caller-added steps
follow it, the first of them at 1-based position 2 (the index the loop's
error wrapping would report for it); and whenever the load succeeds, Run's
first iteration invokes the nil function - a runtime panic - so no
caller-added handler is ever invoked and no wrapped step error is returned. -/
theorem claim10_amended {P V : Type} (ld : GoLoader P) (added : List (GoStep P V))
    (vnil : V) (pkg : P) (hload : (ld 0).1 = some pkg) :
    (newPipeline (P := P) (V := V) ld).steps = [⟨"", none⟩] ∧
    (addSteps (newPipeline ld) added).steps = ⟨"", none⟩ :: added ∧
    (addSteps (newPipeline ld) added).steps.length = 1 + added.length ∧
    (addSteps (newPipeline ld) added).steps.drop 1 = added ∧
    (pipelineRun (addSteps (newPipeline ld) added) vnil).1 = .panicNil 1 ∧
    (pipelineRun (addSteps (newPipeline ld) added) vnil).2.2 = [] := by
  have hs := addSteps_steps added (newPipeline (P := P) (V := V) ld)
  have hl := addSteps_loader added (newPipeline (P := P) (V := V) ld)
  have hs2 : (addSteps (newPipeline ld) added).steps = ⟨"", none⟩ :: added := by
    rw [hs]; rfl
  have hrun : pipelineRun (addSteps (newPipeline ld) added) vnil =
      (.panicNil 1, 1, []) := by
    have hld0 : ((addSteps (newPipeline (P := P) (V := V) ld) added).loader 0).1 =
        some pkg := by
      rw [hl]; exact hload
    simp only [pipelineRun]
    rw [hld0, hs2]
    simp [runSteps]
  refine ⟨rfl, hs2, by simp [hs2]; omega, by simp [hs2], by simp [hrun], by simp [hrun]⟩

/-- Witness for the amended C10 at a concrete loader and one added step. -/
theorem claim10_witness :
    (((fun _ => (some 0, none)) : GoLoader Nat) 0).1 = some 0 ∧
    ((newPipeline (P := Nat) (V := Nat) (fun _ => (some 0, none))).steps = [⟨"", none⟩] ∧
     (addSteps (newPipeline (P := Nat) (V := Nat) (fun _ => (some 0, none)))
        [⟨"x", some fun _ v => (v, none)⟩]).steps =
       ⟨"", none⟩ :: [⟨"x", some fun _ v => (v, none)⟩] ∧
     (addSteps (newPipeline (P := Nat) (V := Nat) (fun _ => (some 0, none)))
        [⟨"x", some fun _ v => (v, none)⟩]).steps.length = 1 + 1 ∧
     (addSteps (newPipeline (P := Nat) (V := Nat) (fun _ => (some 0, none)))
        [⟨"x", some fun _ v => (v, none)⟩]).steps.drop 1 =
       [⟨"x", some fun _ v => (v, none)⟩] ∧
     (pipelineRun (addSteps (newPipeline (P := Nat) (V := Nat) (fun _ => (some 0, none)))
        [⟨"x", some fun _ v => (v, none)⟩]) 0).1 = .panicNil 1 ∧
     (pipelineRun (addSteps (newPipeline (P := Nat) (V := Nat) (fun _ => (some 0, none)))
        [⟨"x", some fun _ v => (v, none)⟩]) 0).2.2 = []) :=
  ⟨rfl,
    claim10_amended (P := Nat) (V := Nat) (fun _ => (some 0, none))
      [⟨"x", some fun _ v => (v, none)⟩] 0 0 rfl⟩

theorem dispatchLoop_all_missing (impl : RType → RType → Bool)
    (funcs : String → Option GoFunc) :
    ∀ (hits : List DHit) (i : Nat), (∀ h ∈ hits, funcs h.name = none) →
      dispatchLoop impl funcs i hits =
        ⟨.ret none,
          hits.map fun h => ⟨h.pos, "handler undefined for " ++ goQuote h.name⟩,
          List.range' i hits.length⟩
  | [], i, _ => by simp [dispatchLoop, List.range']
  | h :: rest, i, hm => by
    have hh := hm h (by simp)
    have ih := dispatchLoop_all_missing impl funcs rest (i + 1)
      (fun d hd => hm d (by simp [hd]))
    simp [dispatchLoop, hh, ih, List.range'_succ]

/-- C2 amended: during a dispatch run, an annotation with no registered
handler only records a diagnostic and processing continues (a catalog none
of whose annotations have handlers is processed in full, with one diagnostic
each and no error); but an arity or type mismatch, or an error returned by
an invoked handler - any CallFunc error - is recorded through Errorf and
returned at once: the dispatch loop ends at that annotation and the
remaining annotations of the catalog are not processed. -/
theorem claim2_dispatch_failures :
    (∀ (impl : RType → RType → Bool) (funcs : String → Option GoFunc)
        (hits : List DHit),
      (∀ h ∈ hits, funcs h.name = none) →
      dispatchRun impl funcs hits =
        ⟨.ret none,
          hits.map fun h => ⟨h.pos, "handler undefined for " ++ goQuote h.name⟩,
          List.range' 0 hits.length⟩) ∧
    (∀ (impl : RType → RType → Bool) (funcs : String → Option GoFunc)
        (i : Nat) (h : DHit) (rest : List DHit) (fn : GoFunc) (e : String) (b : Bool),
      funcs h.name = some fn →
      callFunc impl fn h.callArgs = (.ret (some e), b) →
      dispatchLoop impl funcs i (h :: rest) =
        ⟨.ret (some (h.name ++ ": " ++ e)), [⟨h.pos, h.name ++ ": " ++ e⟩], [i]⟩) := by
  constructor
  · intro impl funcs hits hm
    exact dispatchLoop_all_missing impl funcs hits 0 hm
  · intro impl funcs i h rest fn e b hf he
    simp [dispatchLoop, hf, he]

/-- Witness for the amended C2: two handlerless annotations are both
processed with one diagnostic each; and a concrete CallFunc error at the
head annotation stops the loop at once. -/
theorem claim2_witness :
    ((fun (_ : String) => (none : Option GoFunc)) "A" = none ∧
     dispatchRun (fun _ _ => false) (fun _ => none)
        [⟨"A", 0, ⟨.tNamed "ann", 0⟩, []⟩, ⟨"B", 1, ⟨.tNamed "ann", 1⟩, []⟩] =
       ⟨.ret none,
         [⟨0, "handler undefined for " ++ goQuote "A"⟩,
          ⟨1, "handler undefined for " ++ goQuote "B"⟩],
         List.range' 0 2⟩) :=
  ⟨rfl,
    (claim2_dispatch_failures).1 (fun _ _ => false) (fun _ => none)
      [⟨"A", 0, ⟨.tNamed "ann", 0⟩, []⟩, ⟨"B", 1, ⟨.tNamed "ann", 1⟩, []⟩]
      (by intro h hh; rfl)⟩

/-- C2 counterexample: a catalog of two annotations where the first has a
registered handler of the wrong arity and the second a well-formed handler:
the dispatch run returns the per-annotation error after processing only
annotation 0, and annotation 1 is never processed, so a per-annotation
failure does stop the dispatch adapter. -/
theorem claim2_counterexample :
    dispatchRun (fun _ _ => false)
      (fun n => if n = "A" then some ⟨true, false, [], [], fun _ => none⟩
                else if n = "B" then
                  some ⟨true, false, [.tNamed "ann"], [], fun _ => none⟩
                else none)
      [⟨"A", 0, ⟨.tNamed "ann", 0⟩, []⟩, ⟨"B", 1, ⟨.tNamed "ann", 1⟩, []⟩] =
      ⟨.ret (some "A: need 0 args, have 1 args"),
        [⟨0, "A: need 0 args, have 1 args"⟩], [0]⟩ ∧
    1 ∉ (dispatchRun (fun _ _ => false)
      (fun n => if n = "A" then some ⟨true, false, [], [], fun _ => none⟩
                else if n = "B" then
                  some ⟨true, false, [.tNamed "ann"], [], fun _ => none⟩
                else none)
      [⟨"A", 0, ⟨.tNamed "ann", 0⟩, []⟩, ⟨"B", 1, ⟨.tNamed "ann", 1⟩, []⟩]).processed := by
  constructor
  · rfl
  · intro hmem
    have h : (dispatchRun (fun _ _ => false)
        (fun n => if n = "A" then some ⟨true, false, [], [], fun _ => none⟩
                  else if n = "B" then
                    some ⟨true, false, [.tNamed "ann"], [], fun _ => none⟩
                  else none)
        [⟨"A", 0, ⟨.tNamed "ann", 0⟩, []⟩, ⟨"B", 1, ⟨.tNamed "ann", 1⟩, []⟩]).processed =
        [0] := rfl
    rw [h] at hmem
    simp at hmem

theorem charListLe_trans : ∀ a b c : List Char,
    charListLe a b = true → charListLe b c = true → charListLe a c = true
  | [], _, _, _, _ => rfl
  | _ :: _, [], _, h1, _ => by simp [charListLe] at h1
  | _ :: _, _ :: _, [], _, h2 => by simp [charListLe] at h2
  | x :: xs, y :: ys, z :: zs, h1, h2 => by
    simp only [charListLe] at h1 h2 ⊢
    by_cases hxy : x.toNat = y.toNat <;> by_cases hyz : y.toNat = z.toNat
    · rw [if_pos hxy] at h1
      rw [if_pos hyz] at h2
      rw [if_pos (hxy.trans hyz)]
      exact charListLe_trans xs ys zs h1 h2
    · rw [if_pos hxy] at h1
      rw [if_neg hyz] at h2
      simp only [decide_eq_true_eq] at h2
      rw [if_neg (by omega), decide_eq_true_eq]
      omega
    · rw [if_neg hxy] at h1
      simp only [decide_eq_true_eq] at h1
      rw [if_pos hyz] at h2
      rw [if_neg (by omega), decide_eq_true_eq]
      omega
    · rw [if_neg hxy] at h1
      rw [if_neg hyz] at h2
      simp only [decide_eq_true_eq] at h1 h2
      rw [if_neg (by omega), decide_eq_true_eq]
      omega

theorem charListLe_total : ∀ a b : List Char,
    charListLe a b = true ∨ charListLe b a = true
  | [], _ => Or.inl rfl
  | _ :: _, [] => Or.inr rfl
  | x :: xs, y :: ys => by
    by_cases h : x.toNat = y.toNat
    · have := charListLe_total xs ys
      simp only [charListLe, if_pos h, if_pos h.symm]
      exact this
    · rcases Nat.lt_or_ge x.toNat y.toNat with hlt | hge
      · left
        simp only [charListLe, if_neg h, decide_eq_true_eq]
        omega
      · right
        have hne : y.toNat ≠ x.toNat := fun hh => h hh.symm
        simp only [charListLe, if_neg hne, decide_eq_true_eq]
        omega

instance : IsTrans String strLeR :=
  ⟨fun a b c => charListLe_trans a.data b.data c.data⟩

instance : IsTotal String strLeR :=
  ⟨fun a b => charListLe_total a.data b.data⟩

theorem insKey_nodup {K : Type} [DecidableEq K] {keys : List K} (k : K)
    (h : keys.Nodup) : (insKey keys k).Nodup := by
  unfold insKey
  split
  · exact h
  · next hk => simp [List.nodup_append, h, hk]

theorem insKey_mem {K : Type} [DecidableEq K] (keys : List K) (k a : K) :
    a ∈ insKey keys k ↔ a ∈ keys ∨ a = k := by
  unfold insKey
  split
  · next hk =>
    constructor
    · exact Or.inl
    · rintro (ha | rfl)
      · exact ha
      · exact hk
  · simp

theorem foldl_insKey_nodup : ∀ (hits : List Hit) (ks : List String), ks.Nodup →
    (hits.foldl (fun ks h => insKey ks h.name) ks).Nodup
  | [], _, h => h
  | _ :: rest, ks, h => foldl_insKey_nodup rest _ (insKey_nodup _ h)

theorem foldl_insKey_mem : ∀ (hits : List Hit) (ks : List String) (n : String),
    n ∈ hits.foldl (fun ks h => insKey ks h.name) ks ↔
      n ∈ ks ∨ n ∈ hits.map Hit.name
  | [], ks, n => by simp
  | a :: rest, ks, n => by
    simp only [List.foldl_cons, List.map_cons, List.mem_cons]
    rw [foldl_insKey_mem rest (insKey ks a.name) n, insKey_mem]
    tauto

theorem catalogLoop_all (lk : Nat → Except String Nat) :
    ∀ (hits : List Hit) (db : Adb) (ds : List Diag),
      (catalogLoop lk db ds hits).1.all = db.all ++ hits
  | [], db, ds => by simp [catalogLoop]
  | h :: rest, db, ds => by
    cases hlk : lk h.node with
    | error e =>
      simp only [catalogLoop, hlk]
      rw [catalogLoop_all lk rest]
      simp [adbAdd]
    | ok o =>
      simp only [catalogLoop, hlk]
      rw [catalogLoop_all lk rest]
      simp [adbAddObj, adbAdd]

theorem catalogLoop_nameIdx (lk : Nat → Except String Nat) :
    ∀ (hits : List Hit) (db : Adb) (ds : List Diag) (n : String),
      (catalogLoop lk db ds hits).1.nameIdx n =
        db.nameIdx n ++ hits.filter fun h => decide (h.name = n)
  | [], db, ds, n => by simp [catalogLoop]
  | h :: rest, db, ds, n => by
    cases hlk : lk h.node with
    | error e =>
      simp only [catalogLoop, hlk]
      rw [catalogLoop_nameIdx lk rest]
      by_cases hn : h.name = n
      · simp [adbAdd, idxApp, hn, List.filter_cons]
      · simp [adbAdd, idxApp, hn, List.filter_cons, Ne.symm hn]
    | ok o =>
      simp only [catalogLoop, hlk]
      rw [catalogLoop_nameIdx lk rest]
      by_cases hn : h.name = n
      · simp [adbAddObj, adbAdd, idxApp, hn, List.filter_cons]
      · simp [adbAddObj, adbAdd, idxApp, hn, List.filter_cons, Ne.symm hn]

theorem catalogLoop_nodeIdx (lk : Nat → Except String Nat) :
    ∀ (hits : List Hit) (db : Adb) (ds : List Diag) (n : Nat),
      (catalogLoop lk db ds hits).1.nodeIdx n =
        db.nodeIdx n ++ hits.filter fun h => decide (h.node = n)
  | [], db, ds, n => by simp [catalogLoop]
  | h :: rest, db, ds, n => by
    cases hlk : lk h.node with
    | error e =>
      simp only [catalogLoop, hlk]
      rw [catalogLoop_nodeIdx lk rest]
      by_cases hn : h.node = n
      · simp [adbAdd, idxApp, hn, List.filter_cons]
      · simp [adbAdd, idxApp, hn, List.filter_cons, Ne.symm hn]
    | ok o =>
      simp only [catalogLoop, hlk]
      rw [catalogLoop_nodeIdx lk rest]
      by_cases hn : h.node = n
      · simp [adbAddObj, adbAdd, idxApp, hn, List.filter_cons]
      · simp [adbAddObj, adbAdd, idxApp, hn, List.filter_cons, Ne.symm hn]

theorem catalogLoop_nameKeys (lk : Nat → Except String Nat) :
    ∀ (hits : List Hit) (db : Adb) (ds : List Diag),
      (catalogLoop lk db ds hits).1.nameKeys =
        hits.foldl (fun ks h => insKey ks h.name) db.nameKeys
  | [], db, ds => by simp [catalogLoop]
  | h :: rest, db, ds => by
    cases hlk : lk h.node with
    | error e =>
      simp only [catalogLoop, hlk, List.foldl_cons]
      rw [catalogLoop_nameKeys lk rest]
      rfl
    | ok o =>
      simp only [catalogLoop, hlk, List.foldl_cons]
      rw [catalogLoop_nameKeys lk rest]
      rfl

theorem catalogLoop_pkgIdx (lk : Nat → Except String Nat) :
    ∀ (hits : List Hit) (db : Adb) (ds : List Diag) (p : Nat),
      (catalogLoop lk db ds hits).1.pkgIdx p = db.pkgIdx p
  | [], db, ds, p => by simp [catalogLoop]
  | h :: rest, db, ds, p => by
    cases hlk : lk h.node with
    | error e =>
      simp only [catalogLoop, hlk]
      rw [catalogLoop_pkgIdx lk rest]
      rfl
    | ok o =>
      simp only [catalogLoop, hlk]
      rw [catalogLoop_pkgIdx lk rest]
      rfl

theorem catalogLoop_objIdx_mem (lk : Nat → Except String Nat) :
    ∀ (hits : List Hit) (db : Adb) (ds : List Diag) (o : Nat) (x : Hit),
      x ∈ (catalogLoop lk db ds hits).1.objIdx o →
      x ∈ db.objIdx o ∨ (x ∈ hits ∧ lk x.node = .ok o)
  | [], db, ds, o, x => by
    simp only [catalogLoop]
    exact fun hx => Or.inl hx
  | h :: rest, db, ds, o, x => by
    cases hlk : lk h.node with
    | error e =>
      simp only [catalogLoop, hlk]
      intro hx
      rcases catalogLoop_objIdx_mem lk rest _ _ o x hx with hdb | ⟨hr, hok⟩
      · exact Or.inl hdb
      · exact Or.inr ⟨by simp [hr], hok⟩
    | ok o2 =>
      simp only [catalogLoop, hlk]
      intro hx
      rcases catalogLoop_objIdx_mem lk rest _ _ o x hx with hdb | ⟨hr, hok⟩
      · simp only [adbAddObj, adbAdd, idxApp] at hdb
        by_cases ho : o = o2
        · rw [if_pos ho] at hdb
          rcases List.mem_append.mp hdb with hdb2 | hx2
          · exact Or.inl hdb2
          · have hxh : x = h := by simpa using hx2
            subst hxh
            exact Or.inr ⟨by simp, by rw [hlk, ho]⟩
        · rw [if_neg ho] at hdb
          exact Or.inl hdb
      · exact Or.inr ⟨by simp [hr], hok⟩

theorem catalogLoop_diags_mono (lk : Nat → Except String Nat) :
    ∀ (hits : List Hit) (db : Adb) (ds : List Diag) (d : Diag), d ∈ ds →
      d ∈ (catalogLoop lk db ds hits).2
  | [], db, ds, d, hd => by simpa [catalogLoop] using hd
  | h :: rest, db, ds, d, hd => by
    cases hlk : lk h.node with
    | error e =>
      simp only [catalogLoop, hlk]
      exact catalogLoop_diags_mono lk rest _ _ d (by simp [hd])
    | ok o =>
      simp only [catalogLoop, hlk]
      exact catalogLoop_diags_mono lk rest _ _ d (by simp [hd])

theorem catalogLoop_diag_of_err (lk : Nat → Except String Nat) :
    ∀ (hits : List Hit) (db : Adb) (ds : List Diag) (x : Hit) (e : String),
      x ∈ hits → lk x.node = .error e →
      (⟨x.pos, "cannot find anchor object: " ++ e⟩ : Diag) ∈ (catalogLoop lk db ds hits).2
  | [], _, _, _, _, hx, _ => by cases hx
  | h :: rest, db, ds, x, e, hx, he => by
    rcases List.mem_cons.mp hx with rfl | hr
    · simp only [catalogLoop, he]
      exact catalogLoop_diags_mono lk rest _ _ _ (by simp)
    · cases hlk : lk h.node with
      | error e2 =>
        simp only [catalogLoop, hlk]
        exact catalogLoop_diag_of_err lk rest _ _ x e hr he
      | ok o =>
        simp only [catalogLoop, hlk]
        exact catalogLoop_diag_of_err lk rest _ _ x e hr he

/-- C3: for every finalized catalog, Names() is sorted ascending (Go string
order) with no duplicates and holds exactly the names of the inserted
annotations, and Named(n) returns exactly the annotations named n in
insertion order; in particular the five-annotation catalog A,A,B,C,A yields
Names() = [A,B,C] and Named(A) = the three A annotations in insertion
order. -/
theorem claim3_names_named (lk : Nat → Except String Nat) (hits : List Hit) :
    List.Sorted strLeR (Adb.names (catalogStep lk hits).1) ∧
    (Adb.names (catalogStep lk hits).1).Nodup ∧
    (∀ n, n ∈ Adb.names (catalogStep lk hits).1 ↔ n ∈ hits.map Hit.name) ∧
    (∀ n, Adb.named (catalogStep lk hits).1 n =
      hits.filter fun h => decide (h.name = n)) ∧
    (Adb.names (catalogStep (fun n => .ok n)
        [⟨"A", 1, 1, []⟩, ⟨"A", 2, 2, []⟩, ⟨"B", 3, 3, []⟩,
         ⟨"C", 4, 4, []⟩, ⟨"A", 5, 5, []⟩]).1 = ["A", "B", "C"] ∧
     Adb.named (catalogStep (fun n => .ok n)
        [⟨"A", 1, 1, []⟩, ⟨"A", 2, 2, []⟩, ⟨"B", 3, 3, []⟩,
         ⟨"C", 4, 4, []⟩, ⟨"A", 5, 5, []⟩]).1 "A" =
       [⟨"A", 1, 1, []⟩, ⟨"A", 2, 2, []⟩, ⟨"A", 5, 5, []⟩]) := by
  have hkeys : (catalogStep lk hits).1.nameKeys =
      hits.foldl (fun ks h => insKey ks h.name) [] := by
    unfold catalogStep
    rw [catalogLoop_nameKeys]
    rfl
  refine ⟨?_, ?_, ?_, ?_, by decide, by decide⟩
  · exact List.sorted_insertionSort strLeR _
  · unfold Adb.names sortStrings
    refine (List.perm_insertionSort strLeR _).nodup_iff.mpr ?_
    rw [hkeys]
    exact foldl_insKey_nodup hits [] (by simp)
  · intro n
    unfold Adb.names sortStrings
    rw [(List.perm_insertionSort strLeR _).mem_iff, hkeys, foldl_insKey_mem]
    simp
  · intro n
    unfold Adb.named catalogStep
    rw [catalogLoop_nameIdx]
    rfl

/-- C4 counterexample: an annotation whose anchor fails to resolve is also
inserted into the by-anchor-node index (ForNode finds it), so it is not
inserted only into the by-name index. -/
theorem claim4_counterexample :
    Adb.forNode (catalogStep (fun _ => .error "nope") [⟨"A", 7, 3, []⟩]).1 7 =
      [⟨"A", 7, 3, []⟩] ∧
    Adb.forNode (catalogStep (fun _ => .error "nope") [⟨"A", 7, 3, []⟩]).1 7 ≠ [] :=
  ⟨rfl, by decide⟩

/-- C4 amended: an annotation whose anchor fails to resolve is inserted into
the overall list, the by-name index and the by-anchor-node index, but not
into the by-symbol or by-module index; a diagnostic at its position is
recorded; and it still appears in the catalog under its name. -/
theorem claim4_anchor_failure (lk : Nat → Except String Nat) (hits : List Hit)
    (h : Hit) (e : String) (hmem : h ∈ hits) (herr : lk h.node = .error e) :
    h ∈ Adb.named (catalogStep lk hits).1 h.name ∧
    h ∈ Adb.allOf (catalogStep lk hits).1 ∧
    h ∈ Adb.forNode (catalogStep lk hits).1 h.node ∧
    (∀ o, h ∉ Adb.forObj (catalogStep lk hits).1 o) ∧
    (∀ p, h ∉ Adb.forPkg (catalogStep lk hits).1 p) ∧
    (⟨h.pos, "cannot find anchor object: " ++ e⟩ : Diag) ∈ (catalogStep lk hits).2 := by
  refine ⟨?_, ?_, ?_, ?_, ?_, ?_⟩
  · unfold Adb.named catalogStep
    rw [catalogLoop_nameIdx]
    simp [List.mem_filter, hmem]
  · unfold Adb.allOf catalogStep
    rw [catalogLoop_all]
    simp [hmem]
  · unfold Adb.forNode catalogStep
    rw [catalogLoop_nodeIdx]
    simp [List.mem_filter, hmem]
  · intro o hmem2
    unfold Adb.forObj catalogStep at hmem2
    rcases catalogLoop_objIdx_mem lk hits newAdb [] o h hmem2 with hdb | ⟨_, hok⟩
    · simp [newAdb] at hdb
    · rw [herr] at hok
      cases hok
  · intro p hmem2
    unfold Adb.forPkg catalogStep at hmem2
    rw [catalogLoop_pkgIdx] at hmem2
    simp [newAdb] at hmem2
  · unfold catalogStep
    exact catalogLoop_diag_of_err lk hits newAdb [] h e hmem herr

/-- Witness for the amended C4 at a concrete one-annotation catalog whose
anchor lookup fails. -/
theorem claim4_witness :
    (⟨"A", 7, 3, []⟩ : Hit) ∈ [(⟨"A", 7, 3, []⟩ : Hit)] ∧
    ((fun _ => Except.error "nope") : Nat → Except String Nat) 7 = .error "nope" ∧
    ((⟨"A", 7, 3, []⟩ : Hit) ∈
      Adb.named (catalogStep (fun _ => .error "nope") [⟨"A", 7, 3, []⟩]).1 "A" ∧
     (⟨"A", 7, 3, []⟩ : Hit) ∈
      Adb.allOf (catalogStep (fun _ => .error "nope") [⟨"A", 7, 3, []⟩]).1 ∧
     (⟨"A", 7, 3, []⟩ : Hit) ∈
      Adb.forNode (catalogStep (fun _ => .error "nope") [⟨"A", 7, 3, []⟩]).1 7 ∧
     (∀ o, (⟨"A", 7, 3, []⟩ : Hit) ∉
      Adb.forObj (catalogStep (fun _ => .error "nope") [⟨"A", 7, 3, []⟩]).1 o) ∧
     (∀ p, (⟨"A", 7, 3, []⟩ : Hit) ∉
      Adb.forPkg (catalogStep (fun _ => .error "nope") [⟨"A", 7, 3, []⟩]).1 p) ∧
     (⟨3, "cannot find anchor object: " ++ "nope"⟩ : Diag) ∈
      (catalogStep (fun _ => .error "nope") [⟨"A", 7, 3, []⟩]).2) :=
  ⟨by simp, rfl,
    claim4_anchor_failure (fun _ => .error "nope") [⟨"A", 7, 3, []⟩]
      ⟨"A", 7, 3, []⟩ "nope" (by simp) rfl⟩

theorem isDigit_ne_sign {c : Char} (h : isDigit c = true) : c ≠ '-' ∧ c ≠ '+' :=
  ⟨fun hc => by subst hc; exact absurd h (by decide),
   fun hc => by subst hc; exact absurd h (by decide)⟩

theorem goAtoi_nosign {s : String} {c : Char} {rest : List Char}
    (hs : s.data = c :: rest) (h1 : ¬(c = '-' ∨ c = '+')) :
    goAtoi s =
      match digitsVal (c :: rest) with
      | none => .error "invalid syntax"
      | some n =>
        if (n : Int) < int64Min ∨ int64Max < (n : Int) then
          .error "value out of range"
        else .ok (n : Int) := by
  have hc1 : (c = '-') = False := eq_false fun hh => h1 (Or.inl hh)
  have hc2 : (c = '+') = False := eq_false fun hh => h1 (Or.inr hh)
  unfold goAtoi
  rw [hs]
  simp only [hc1, hc2, false_or, if_false]

theorem goAtoi_signed {s : String} {rest : List Char} (hs : s.data = '-' :: rest) :
    goAtoi s =
      match digitsVal rest with
      | none => .error "invalid syntax"
      | some n =>
        if -(n : Int) < int64Min ∨ int64Max < -(n : Int) then
          .error "value out of range"
        else .ok (-(n : Int)) := by
  unfold goAtoi
  rw [hs]
  simp

theorem goAtoi_neg {s : String} {v : Int} (hd : headIsDigit s = true)
    (h : goAtoi s = .ok v) : goAtoi ("-" ++ s) = .ok (-v) ∧ 0 ≤ v := by
  cases hs : s.data with
  | nil => unfold headIsDigit at hd; rw [hs] at hd; cases hd
  | cons c rest =>
    have hdig : isDigit c = true := by
      unfold headIsDigit at hd; rw [hs] at hd; exact hd
    have hc := isDigit_ne_sign hdig
    have hcond : ¬(c = '-' ∨ c = '+') := by
      rintro (rfl | rfl)
      · exact hc.1 rfl
      · exact hc.2 rfl
    have hdata : ("-" ++ s).data = '-' :: c :: rest := by
      rw [String.data_append, hs]; rfl
    rw [goAtoi_nosign hs hcond] at h
    rw [goAtoi_signed hdata]
    cases hdv : digitsVal (c :: rest) with
    | none => simp only [hdv] at h; exact Except.noConfusion h
    | some n =>
      simp only [hdv] at h ⊢
      by_cases hrange : (n : Int) < int64Min ∨ int64Max < (n : Int)
      · rw [if_pos hrange] at h; cases h
      · rw [if_neg hrange] at h
        have hv : (n : Int) = v := by cases h; rfl
        have hrange2 : ¬(-(n : Int) < int64Min ∨ int64Max < -(n : Int)) := by
          simp only [int64Min, int64Max] at hrange ⊢
          omega
        rw [if_neg hrange2, hv]
        exact ⟨rfl, by rw [← hv]; exact Int.ofNat_nonneg n⟩

theorem goParseFloat_nosign {s : String} {c : Char} {rest : List Char}
    (hs : s.data = c :: rest) (h1 : ¬(c = '-' ∨ c = '+')) :
    goParseFloat s =
      match floatCore (c :: rest) with
      | none => .error "invalid syntax"
      | some (m, flen, e) => .ok ((m : Int), e - (flen : Int)) := by
  have hc1 : (c = '-') = False := eq_false fun hh => h1 (Or.inl hh)
  have hc2 : (c = '+') = False := eq_false fun hh => h1 (Or.inr hh)
  unfold goParseFloat
  rw [hs]
  simp only [hc1, hc2, false_or, if_false]

theorem goParseFloat_signed {s : String} {rest : List Char}
    (hs : s.data = '-' :: rest) :
    goParseFloat s =
      match floatCore rest with
      | none => .error "invalid syntax"
      | some (m, flen, e) => .ok (-(m : Int), e - (flen : Int)) := by
  unfold goParseFloat
  rw [hs]
  simp

theorem goParseFloat_neg {s : String} {m e : Int} (hd : headIsDigitOrDot s = true)
    (h : goParseFloat s = .ok (m, e)) : goParseFloat ("-" ++ s) = .ok (-m, e) := by
  cases hs : s.data with
  | nil => unfold headIsDigitOrDot at hd; rw [hs] at hd; cases hd
  | cons c rest =>
    have hdd : isDigit c = true ∨ c = '.' := by
      unfold headIsDigitOrDot at hd; rw [hs] at hd
      rcases Bool.or_eq_true_iff.mp hd with h1 | h2
      · exact Or.inl h1
      · exact Or.inr (by simpa using h2)
    have hcne : c ≠ '-' ∧ c ≠ '+' := by
      rcases hdd with hdig | rfl
      · exact isDigit_ne_sign hdig
      · exact ⟨by decide, by decide⟩
    have hcond : ¬(c = '-' ∨ c = '+') := by
      rintro (rfl | rfl)
      · exact hcne.1 rfl
      · exact hcne.2 rfl
    have hdata : ("-" ++ s).data = '-' :: c :: rest := by
      rw [String.data_append, hs]; rfl
    rw [goParseFloat_nosign hs hcond] at h
    rw [goParseFloat_signed hdata]
    cases hfc : floatCore (c :: rest) with
    | none => simp only [hfc] at h; exact Except.noConfusion h
    | some t =>
      obtain ⟨m0, flen, ex⟩ := t
      simp only [hfc] at h ⊢
      cases h
      rfl

theorem goUnquote_head_dash (s : String) :
    goUnquote ("-" ++ s) = .error "invalid syntax" := by
  have hdata : ("-" ++ s).data = '-' :: s.data := by
    rw [String.data_append]; rfl
  unfold goUnquote
  rw [hdata]
  rfl

theorem evalLit_neg_str (l : BasicLit) (hk : l.kind = .kStr) :
    evalLit (.unary .opSub (.xLit l)) = .error "invalid syntax" := by
  have hstr : (LitNode.unary .opSub (.xLit l)).str = "-" ++ l.text := rfl
  simp only [evalLit, hk, evalKind, hstr, ne_eq, not_true_eq_false, if_false,
    goUnquote_head_dash l.text, reduceIte]
  rfl

theorem evalLit_bad_op (op : GoOp) (x : UnaryX) (hop : op ≠ .opSub) :
    ∃ msg, evalLit (.unary op x) = .error msg := by
  cases x with
  | xOther t => exact ⟨_, rfl⟩
  | xLit l =>
    exact ⟨"unsupported unary operator " ++ op.str ++ " in " ++
      goQuote (LitNode.unary op (.xLit l)).str, by
        simp only [evalLit]
        rw [if_pos hop]⟩

/-- C6: a decimal numeric literal preceded by exactly one unary minus
evaluates to the literal's value with the sign folded in (integers and
floats; the float value is the exact decimal m times 10 to the e); a unary
minus applied to a string literal is an error (strconv.Unquote rejects the
sign-prefixed text), and any unary operator other than minus applied to any
operand is an error; and the comment line with Literals("a string", 5,
-0.125) yields exactly one annotation whose three literal arguments are the
string, the integer 5 and the float -0.125. -/
theorem claim6_literal_negation :
    (∀ (l : BasicLit) (v : Int), l.kind = .kInt → headIsDigit l.text = true →
      evalLit (.basic l) = .ok (.vInt v) →
      evalLit (.unary .opSub (.xLit l)) = .ok (.vInt (-v))) ∧
    (∀ (l : BasicLit) (m e : Int), l.kind = .kFloat →
      headIsDigitOrDot l.text = true →
      evalLit (.basic l) = .ok (.vFloat m e) →
      evalLit (.unary .opSub (.xLit l)) = .ok (.vFloat (-m) e)) ∧
    (∀ l : BasicLit, l.kind = .kStr →
      evalLit (.unary .opSub (.xLit l)) = .error "invalid syntax") ∧
    (∀ (op : GoOp) (x : UnaryX), op ≠ .opSub →
      ∃ msg, evalLit (.unary op x) = .error msg) ∧
    (parseCommentAnnots "// @Literals(\"a string\", 5, -0.125)" =
      ([⟨"Literals", [.aLit (.vStr "a string"), .aLit (.vInt 5),
        .aLit (.vFloat (-125) (-3))]⟩], 0) ∧
     floatDenote (-125) (-3) = -(0.125 : ℚ)) := by
  refine ⟨?_, ?_, fun l hk => evalLit_neg_str l hk, evalLit_bad_op,
    by decide, by norm_num [floatDenote]⟩
  · intro l v hk hd hb
    have hstrb : (LitNode.basic l).str = l.text := rfl
    simp only [evalLit, hk, evalKind, hstrb] at hb
    cases ha : goAtoi l.text with
    | error e2 => rw [ha] at hb; simp [Except.map] at hb
    | ok n =>
      rw [ha] at hb
      simp only [Except.map] at hb
      have hnv : n = v := by
        cases hb
        rfl
      subst hnv
      have hneg := (goAtoi_neg hd ha).1
      have hstr : (LitNode.unary .opSub (.xLit l)).str = "-" ++ l.text := rfl
      simp only [evalLit, hk, evalKind, hstr, ne_eq, not_true_eq_false,
        if_false, reduceIte, hneg, Except.map]
  · intro l m e hk hd hb
    have hstrb : (LitNode.basic l).str = l.text := rfl
    simp only [evalLit, hk, evalKind, hstrb] at hb
    cases ha : goParseFloat l.text with
    | error e2 => rw [ha] at hb; simp [Except.map] at hb
    | ok me =>
      rw [ha] at hb
      simp only [Except.map] at hb
      obtain ⟨m0, e0⟩ := me
      have hmv : m0 = m ∧ e0 = e := by
        cases hb
        exact ⟨rfl, rfl⟩
      obtain ⟨rfl, rfl⟩ := hmv
      have hneg := goParseFloat_neg hd ha
      have hstr : (LitNode.unary .opSub (.xLit l)).str = "-" ++ l.text := rfl
      simp only [evalLit, hk, evalKind, hstr, ne_eq, not_true_eq_false,
        if_false, reduceIte, hneg, Except.map]

/-- Witness for C6: the integer literal 5 negates to -5, and negating the
string literal "a" is an error. -/
theorem claim6_witness :
    ((⟨.kInt, "5"⟩ : BasicLit).kind = .kInt ∧ headIsDigit "5" = true ∧
      evalLit (.basic ⟨.kInt, "5"⟩) = .ok (.vInt 5)) ∧
    evalLit (.unary .opSub (.xLit ⟨.kInt, "5"⟩)) = .ok (.vInt (-5)) ∧
    evalLit (.unary .opSub (.xLit ⟨.kStr, "\"a\""⟩)) = .error "invalid syntax" :=
  ⟨⟨rfl, by decide, rfl⟩,
    claim6_literal_negation.1 ⟨.kInt, "5"⟩ 5 rfl (by decide) rfl,
    claim6_literal_negation.2.2.1 ⟨.kStr, "\"a\""⟩ rfl⟩

/-- C7 at the failing input: a registered handler with a concrete
(non-interface) declared parameter type, called with an argument of a
different runtime type, makes CallFunc evaluate have.Implements(need) with a
non-interface need - a reflect panic - instead of returning the
per-argument error its own documentation promises; the pre-call checks that
do work (arity mismatch, variadic handler, bad return shape) return errors
without invoking the handler. -/
theorem claim7_callfunc_panics :
    callFunc (fun _ _ => false)
      ⟨true, false, [.tNamed "string"], [.tErr], fun _ => none⟩
      [⟨.tNamed "int", 0⟩] =
      (.panicked "reflect: non-interface type passed to Type.Implements", false) ∧
    callFunc (fun _ _ => false)
      ⟨true, false, [], [.tErr], fun _ => none⟩
      [⟨.tNamed "int", 0⟩] =
      (.ret (some "need 0 args, have 1 args"), false) ∧
    callFunc (fun _ _ => false)
      ⟨true, true, [.tNamed "string"], [.tErr], fun _ => none⟩
      [⟨.tNamed "string", 0⟩] =
      (.ret (some "variadic fn not supported"), false) ∧
    callFunc (fun _ _ => false)
      ⟨true, false, [.tNamed "string"], [.tErr, .tErr], fun _ => none⟩
      [⟨.tNamed "string", 0⟩] =
      (.ret (some "fn returns >1 value"), false) ∧
    callFunc (fun _ _ => false)
      ⟨true, false, [.tIface "Stringer"], [.tErr], fun _ => none⟩
      [⟨.tNamed "int", 0⟩] =
      (.ret (some ("arg 0: need Stringer, have int")), false) :=
  ⟨rfl, rfl, rfl, rfl, rfl⟩

theorem lookupRefLoop_spec (env : ResolveEnv) :
    ∀ (path : List String) (parent : Parent),
      ((lookupRefLoop env parent path).2.2 ≤ path.length) ∧
      ((lookupRefLoop env parent path).2.1 = none →
        (lookupRefLoop env parent path).2.2 = path.length ∧
        (lookupRefLoop env parent path).1.length = path.length) ∧
      (∀ e, (lookupRefLoop env parent path).2.1 = some e →
        (lookupRefLoop env parent path).2.2 =
          (lookupRefLoop env parent path).1.length + 1 ∧
        (lookupRefLoop env parent path).1.length + 1 ≤ path.length)
  | [], parent => by simp [lookupRefLoop]
  | name :: rest, parent => by
    cases hl : lookupName env parent name with
    | error e =>
      simp only [lookupRefLoop, hl]
      refine ⟨?_, ?_, ?_⟩
      · simp
      · intro h
        cases h
      · intro e2 he2
        simp
    | ok obj =>
      have ih := lookupRefLoop_spec env rest (.pObj obj)
      simp only [lookupRefLoop, hl]
      refine ⟨by simp; omega, ?_, ?_⟩
      · intro hnone
        have := ih.2.1 hnone
        simp [this]
      · intro e2 he2
        have := ih.2.2 e2 he2
        simp
        omega

/-- C8: for a reference path of k segments, LookupRef performs at most k
LookupName calls, one per segment in order; on success it performs exactly k
and resolves k objects, and if the lookup for a segment fails, resolution
stops there - the failing segment is number (resolved chain length + 1) and
no lookup is performed for any later segment. -/
theorem claim8_resolution_bounded (env : ResolveEnv) (scope : Nat)
    (path : List String) :
    ((lookupRef env scope path).2.2 ≤ path.length) ∧
    ((lookupRef env scope path).2.1 = none →
      (lookupRef env scope path).2.2 = path.length ∧
      (lookupRef env scope path).1.length = path.length) ∧
    (∀ e, (lookupRef env scope path).2.1 = some e →
      (lookupRef env scope path).2.2 = (lookupRef env scope path).1.length + 1 ∧
      (lookupRef env scope path).1.length + 1 ≤ path.length) :=
  lookupRefLoop_spec env path (.pScope scope)

/-- Witness for C8: a three-segment path whose second segment fails resolves
one object, performs two lookups of three possible, and reports the error. -/
theorem claim8_witness :
    (lookupRef
      ⟨fun _ n => if n = "a" then some (.oPlain 1) else none,
       fun p => p, fun p => p, fun _ _ => none⟩
      0 ["a", "b", "c"]).2.1 = some (goQuote "b" ++ " not found in object") ∧
    ((lookupRef
      ⟨fun _ n => if n = "a" then some (.oPlain 1) else none,
       fun p => p, fun p => p, fun _ _ => none⟩
      0 ["a", "b", "c"]).2.2 =
      (lookupRef
      ⟨fun _ n => if n = "a" then some (.oPlain 1) else none,
       fun p => p, fun p => p, fun _ _ => none⟩
      0 ["a", "b", "c"]).1.length + 1 ∧
     (lookupRef
      ⟨fun _ n => if n = "a" then some (.oPlain 1) else none,
       fun p => p, fun p => p, fun _ _ => none⟩
      0 ["a", "b", "c"]).1.length + 1 ≤ 3) :=
  ⟨by decide,
    (claim8_resolution_bounded
      ⟨fun _ n => if n = "a" then some (.oPlain 1) else none,
       fun p => p, fun p => p, fun _ _ => none⟩
      0 ["a", "b", "c"]).2.2 (goQuote "b" ++ " not found in object") (by decide)⟩

/-- C9 counterexample: a line comment with two spaces (or a tab) between //
and @ is not recognized as an annotation candidate, although it has a
leading @ after the comment prefix plus whitespace; with a single space it
is recognized. -/
theorem claim9_counterexample :
    singleCommentChunk "//  @Name()" = none ∧
    singleCommentChunk "//\t@Name()" = none ∧
    parseCommentAnnots "//  @Name()" = ([], 0) ∧
    (singleCommentChunk "// @Name()").isSome = true := by
  refine ⟨by decide, by decide, by decide, by decide⟩

/-- C9 amended: a single-line comment yields an annotation candidate exactly
when the text begins with the two comment slashes, at most one space, and
the at sign (the pattern `^// ?@`); a comment without this marker yields no
candidate and hence no annotation and no error. -/
theorem claim9_marker (t : String) :
    ((singleCommentChunk t).isSome = true ↔
      ("//@".data <+: t.data ∨ "// @".data <+: t.data)) ∧
    (singleCommentChunk t = none → parseCommentAnnots t = ([], 0)) := by
  constructor
  · unfold singleCommentChunk annBeginSingleSplit
    split
    · next rest heq =>
      exact iff_of_true rfl (Or.inr ⟨rest, by rw [heq]; rfl⟩)
    · next rest heq =>
      exact iff_of_true rfl (Or.inl ⟨rest, by rw [heq]; rfl⟩)
    · next hne1 hne2 =>
      refine iff_of_false (by simp) ?_
      rintro (⟨r, hr⟩ | ⟨r, hr⟩)
      · exact hne2 r hr.symm
      · exact hne1 r hr.symm
  · intro h
    unfold parseCommentAnnots
    rw [h]

/-- Witness for the amended C9: a marker-less comment yields nothing, and
the single-space marker is recognized. -/
theorem claim9_witness :
    singleCommentChunk "// some words" = none ∧
    parseCommentAnnots "// some words" = ([], 0) ∧
    (singleCommentChunk "// @Name()").isSome = true :=
  ⟨by decide, (claim9_marker "// some words").2 (by decide),
    (claim9_marker "// @Name()").1.mpr (Or.inr (by decide))⟩
